import Mathlib

/-
Verification of the diagnostics layer and event routing of the flix
language-server bridge (src/server/src/server.ts), together with a model of
the job/request lifecycle engine described by the design document (the
engine's own source, handlers.ts / engine/jobs.ts, is not part of the
sources; it is modelled from the spec).
-/

set_option autoImplicit false

namespace VSF

/-! ## Data model: LSP diagnostic shapes used by server.ts -/

/-- A single diagnostic marker: a range, a message and a severity. -/
structure Diagnostic where
  startLine : Nat
  startChar : Nat
  endLine : Nat
  endChar : Nat
  message : String
  severity : Nat
deriving DecidableEq, Repr

/-- The parameter record of a publish-diagnostics call: `PublishDiagnosticsParams`
from vscode-languageserver, restricted to the fields server.ts touches. -/
structure PublishDiagnosticsParams where
  uri : String
  diagnostics : List Diagnostic
deriving DecidableEq, Repr

/-- The observable state of the server module: the mutable module-level set
`fileUrisWithErrors` (a JS `Set<string>`, modelled as its insertion-ordered,
duplicate-free element list) together with the log of notifications handed
to `connection.sendDiagnostics` (the transport), oldest first. -/
structure ServerState where
  fileUrisWithErrors : List String
  sentNotifications : List PublishDiagnosticsParams
deriving DecidableEq, Repr

/-- State at module load: `new Set()` and nothing sent. -/
def initState : ServerState := ⟨[], []⟩

/-- `Set.prototype.add`: appends the element unless already present. -/
def setAdd (s : List String) (u : String) : List String :=
  if u ∈ s then s else s ++ [u]

/-- server.ts lines 127-130:
`export function sendDiagnostics (params) { fileUrisWithErrors.add(params.uri); connection.sendDiagnostics(params) }` -/
def sendDiagnostics (st : ServerState) (params : PublishDiagnosticsParams) : ServerState :=
  { fileUrisWithErrors := setAdd st.fileUrisWithErrors params.uri
    sentNotifications := st.sentNotifications ++ [params] }

/-- server.ts lines 119-122:
`export function clearDiagnostics () { fileUrisWithErrors.forEach((uri) => sendDiagnostics({ uri, diagnostics: [] })); fileUrisWithErrors.clear() }`.
The `forEach` body re-adds each uri, which is a no-op on a JS `Set` since the
uri is already a member, so folding over the snapshot list is faithful. -/
def clearDiagnostics (st : ServerState) : ServerState :=
  let st1 := st.fileUrisWithErrors.foldl
    (fun acc uri => sendDiagnostics acc ⟨uri, []⟩) st
  { st1 with fileUrisWithErrors := [] }

/-! ## Operation traces over the diagnostics layer -/

/-- One externally invoked operation on the diagnostics layer: a call to
`sendDiagnostics` (spec name: `publish`) or to `clearDiagnostics` (spec
name: `clearAll`). -/
inductive Op where
  | publish (uri : String) (diags : List Diagnostic)
  | clearAll
deriving DecidableEq, Repr

/-- Apply one operation to the server state. -/
def opStep (st : ServerState) : Op → ServerState
  | Op.publish u ds => sendDiagnostics st ⟨u, ds⟩
  | Op.clearAll => clearDiagnostics st

/-- Run a trace of operations from a given state. -/
def runFrom (st : ServerState) (ops : List Op) : ServerState :=
  ops.foldl opStep st

/-- Run a trace of operations from the module-load state. -/
def run (ops : List Op) : ServerState :=
  runFrom initState ops

/-- The diagnostics array carried by the last notification sent for `uri`,
if any notification for `uri` was ever sent. -/
def lastPublished (log : List PublishDiagnosticsParams) (uri : String) : Option (List Diagnostic) :=
  ((log.filter (fun p => p.uri == uri)).getLast?).map (fun p => p.diagnostics)

/-- Number of retraction notifications (empty diagnostics array) sent for `uri`. -/
def retractionCount (log : List PublishDiagnosticsParams) (uri : String) : Nat :=
  (log.filter (fun p => p.uri == uri && p.diagnostics.isEmpty)).length

/-- The effect of one operation on the tracked-uri set alone. -/
def ledgerStep (acc : List String) : Op → List String
  | Op.publish u _ => setAdd acc u
  | Op.clearAll => []

/-- Whether a trace contains a `clearAll`. -/
def hasClear (ops : List Op) : Bool :=
  ops.any (fun op => match op with | Op.clearAll => true | _ => false)

/-- Fold keeping only the operations after the most recent `clearAll`. -/
def clearResetStep (acc : List Op) (op : Op) : List Op :=
  match op with
  | Op.clearAll => []
  | p => acc ++ [p]

/-- The publish operations of a trace that happened after its most recent
`clearAll` (all of them when the trace has no `clearAll`). -/
def opsAfterLastClear (ops : List Op) : List Op :=
  ops.foldl clearResetStep []

/-- The uris of the publish operations of a trace, in order. -/
def publishedUris (ops : List Op) : List String :=
  ops.filterMap (fun op => match op with | Op.publish u _ => some u | Op.clearAll => none)

/-! ## Event routing (server.ts lines 81-100) -/

/-- The editor-originated events server.ts registers handlers for. -/
inductive ServerEvent where
  | notifInternalReady
  | notifApiAddUri
  | notifApiRemUri
  | exit
  | didChangeContent
  | didSave
  | hover
  | gotoDefinition
deriving DecidableEq, Repr

/-- The handler functions of the external handlers module, by identity. -/
inductive Handler where
  | handleReady
  | handleAddUri
  | handleRemUri
  | handleExit
  | handleChangeContent
  | handleHover
  | handleGotoDefinition
deriving DecidableEq, Repr

/-- The registration table of server.ts lines 81-100: which handler function
is registered for each editor event. In particular lines 91 and 94 register
`handlers.handleChangeContent` for both content-change and save events. -/
def registeredHandler : ServerEvent → Handler
  | ServerEvent.notifInternalReady => Handler.handleReady
  | ServerEvent.notifApiAddUri => Handler.handleAddUri
  | ServerEvent.notifApiRemUri => Handler.handleRemUri
  | ServerEvent.exit => Handler.handleExit
  | ServerEvent.didChangeContent => Handler.handleChangeContent
  | ServerEvent.didSave => Handler.handleChangeContent
  | ServerEvent.hover => Handler.handleHover
  | ServerEvent.gotoDefinition => Handler.handleGotoDefinition

/-! ## Job Engine (spec §3-§4.1, §5)

The engine's source (handlers.ts, engine/) is not among the sources; the
definitions below are modelled from the spec's Job Engine contract. -/

/-- Modelled from the spec: the closed `RequestKind` enumeration of §3; the
engine's own source (engine/jobs.ts) is missing from the sources. -/
inductive RequestKind where
  | internalReady
  | apiAddUri
  | apiRemUri
  | documentChanged
  | documentSaved
  | hover
  | gotoDefinition
  | shutdown
deriving DecidableEq, Repr

/-- Modelled from the spec: which job kinds coalesce (the document-recompile
kinds; §3 and the §4.4 table). -/
def RequestKind.coalescable : RequestKind → Bool
  | RequestKind.documentChanged => true
  | RequestKind.documentSaved => true
  | _ => false

/-- Modelled from the spec: a Job of §3, `{ kind, payload, id }`, with the
payload key (per-URI key for coalescable kinds) as a string. -/
structure Job where
  kind : RequestKind
  key : String
  id : Nat
deriving DecidableEq, Repr

/-- Modelled from the spec: the `EngineState` of §3,
`{NotReady, Ready, Busy, Exited}`. -/
inductive EngineState where
  | NotReady
  | Ready
  | Busy
  | Exited
deriving DecidableEq, Repr

/-- Modelled from the spec: the Job Engine state of §3-§4.1: lifecycle state,
`PendingQueue`, `InFlight`, plus two event counters instrumenting the Compiler
Proxy boundary: how many jobs were dispatched to it and how many of those were
settled (result matched, or failed on compiler exit). -/
structure Engine where
  state : EngineState
  pendingQueue : List Job
  inFlight : Option Job
  dispatchCount : Nat
  settleCount : Nat
deriving DecidableEq, Repr

/-- Modelled from the spec: the engine at server start (`NotReady`, empty
queue, nothing in flight). -/
def initEngine : Engine := ⟨EngineState.NotReady, [], none, 0, 0⟩

/-- Modelled from the spec: two jobs carry the same coalescing identity when
they agree on kind and payload key (§3). -/
def sameKey (j j2 : Job) : Bool :=
  j.kind == j2.kind && j.key == j2.key

/-- Modelled from the spec: `submit(job)` of §4.1 — a coalescable job replaces
an equivalent-key queued job in place, otherwise the job is appended. -/
def submitQueue (q : List Job) (j : Job) : List Job :=
  if j.kind.coalescable && q.any (sameKey j) then
    q.map (fun j2 => if sameKey j j2 then j else j2)
  else q ++ [j]

/-- Modelled from the spec: `drive()` of §4.1 — when `InFlight` is empty and
the engine is `Ready`, pop the head of `PendingQueue`, move it to `InFlight`
and dispatch it to the Compiler Proxy; otherwise a no-op. -/
def drive (e : Engine) : Engine :=
  if e.state = EngineState.Ready ∧ e.inFlight = none then
    match e.pendingQueue with
    | [] => e
    | j :: rest =>
      { e with state := EngineState.Busy, pendingQueue := rest, inFlight := some j,
               dispatchCount := e.dispatchCount + 1 }
  else e

/-- Modelled from the spec: the external events driving the engine — the
compiler's readiness signal (§3 lifecycle), `submit`, `onResult` (§4.1) and
`onCompilerExit` (§4.1). -/
inductive EngineEv where
  | ready
  | submit (j : Job)
  | result (id : Nat)
  | compilerExit
deriving DecidableEq, Repr

/-- Modelled from the spec: one engine transition per external event (§4.1).
Readiness moves `NotReady → Ready`; `submit` enqueues with coalescing; a
result matching `InFlight` settles it and frees the slot; a stale result is
discarded (but `drive()` still advances the queue, §8 Scenario D);
`onCompilerExit` fails the in-flight job and drops the queue without
dispatching. `drive()` runs after every event that can free or feed the
dispatch slot. -/
def engineStep (e : Engine) : EngineEv → Engine
  | EngineEv.ready =>
    if e.state = EngineState.NotReady then
      drive { e with state := EngineState.Ready }
    else e
  | EngineEv.submit j =>
    drive { e with pendingQueue := submitQueue e.pendingQueue j }
  | EngineEv.result i =>
    match e.inFlight with
    | some j =>
      if j.id = i then
        drive { e with state := EngineState.Ready, inFlight := none,
                       settleCount := e.settleCount + 1 }
      else e
    | none => drive e
  | EngineEv.compilerExit =>
    { e with state := EngineState.Exited, inFlight := none, pendingQueue := [],
             settleCount := e.settleCount +
               (match e.inFlight with | some _ => 1 | none => 0) }

/-- Run a trace of external events from server start. -/
def runEngine (evs : List EngineEv) : Engine :=
  evs.foldl engineStep initEngine

/-- How many jobs are outstanding against the Compiler Proxy right now. -/
def inFlightCount (e : Engine) : Nat :=
  match e.inFlight with | some _ => 1 | none => 0

/-- The engine's accounting invariant: every dispatched job is either settled
or the unique in-flight one, and a job can only be in flight while `Busy`. -/
def EngineInv (e : Engine) : Prop :=
  e.dispatchCount = e.settleCount + inFlightCount e ∧
  (∀ j : Job, e.inFlight = some j → e.state = EngineState.Busy)

/-! ## Helper lemmas: diagnostics layer -/

theorem mem_setAdd (l : List String) (u v : String) :
    u ∈ setAdd l v ↔ u ∈ l ∨ u = v := by
  unfold setAdd
  by_cases h : v ∈ l
  · rw [if_pos h]
    constructor
    · exact Or.inl
    · rintro (h2 | rfl)
      · exact h2
      · exact h
  · rw [if_neg h]
    simp [List.mem_append]

theorem foldl_send_log (l : List String) :
    ∀ st : ServerState,
      (l.foldl (fun acc u => sendDiagnostics acc ⟨u, []⟩) st).sentNotifications
        = st.sentNotifications ++ l.map (fun u => (⟨u, []⟩ : PublishDiagnosticsParams)) := by
  induction l with
  | nil => intro st; simp
  | cons u rest ih =>
    intro st
    rw [List.foldl_cons, ih (sendDiagnostics st ⟨u, []⟩)]
    simp [sendDiagnostics]

theorem clearDiagnostics_log (st : ServerState) :
    (clearDiagnostics st).sentNotifications
      = st.sentNotifications
        ++ st.fileUrisWithErrors.map (fun u => (⟨u, []⟩ : PublishDiagnosticsParams)) := by
  show (st.fileUrisWithErrors.foldl
    (fun acc uri => sendDiagnostics acc ⟨uri, []⟩) st).sentNotifications = _
  exact foldl_send_log st.fileUrisWithErrors st

theorem clearDiagnostics_ledger (st : ServerState) :
    (clearDiagnostics st).fileUrisWithErrors = [] := rfl

theorem runFrom_ledger (ops : List Op) :
    ∀ st : ServerState,
      (runFrom st ops).fileUrisWithErrors = ops.foldl ledgerStep st.fileUrisWithErrors := by
  induction ops with
  | nil => intro st; rfl
  | cons op rest ih =>
    intro st
    cases op with
    | publish u ds =>
      simpa [runFrom, opStep, ledgerStep, sendDiagnostics]
        using ih (sendDiagnostics st ⟨u, ds⟩)
    | clearAll =>
      simpa [runFrom, opStep, ledgerStep, clearDiagnostics_ledger]
        using ih (clearDiagnostics st)

theorem publishedUris_cons_publish (v : String) (ds : List Diagnostic) (rest : List Op) :
    publishedUris (Op.publish v ds :: rest) = v :: publishedUris rest := rfl

theorem publishedUris_cons_clear (rest : List Op) :
    publishedUris (Op.clearAll :: rest) = publishedUris rest := rfl

theorem foldl_clearReset (ops : List Op) :
    ∀ a : List Op,
      ops.foldl clearResetStep a
        = if hasClear ops then opsAfterLastClear ops else a ++ ops := by
  induction ops with
  | nil => intro a; simp [hasClear, opsAfterLastClear]
  | cons op rest ih =>
    intro a
    cases op with
    | clearAll =>
      have hhc : hasClear (Op.clearAll :: rest) = true := by simp [hasClear]
      rw [List.foldl_cons, show clearResetStep a Op.clearAll = [] from rfl, hhc, if_pos rfl]
      show rest.foldl clearResetStep [] = (Op.clearAll :: rest).foldl clearResetStep []
      rw [List.foldl_cons]
      rfl
    | publish v ds =>
      have hhc : hasClear (Op.publish v ds :: rest) = hasClear rest := by
        simp [hasClear]
      rw [List.foldl_cons,
        show clearResetStep a (Op.publish v ds) = a ++ [Op.publish v ds] from rfl,
        ih (a ++ [Op.publish v ds]), hhc]
      by_cases hc : hasClear rest
      · rw [if_pos hc, if_pos hc]
        show opsAfterLastClear rest = (Op.publish v ds :: rest).foldl clearResetStep []
        rw [List.foldl_cons, show clearResetStep [] (Op.publish v ds) = [Op.publish v ds] from rfl,
          ih [Op.publish v ds], if_pos hc]
      · rw [if_neg hc, if_neg hc]
        simp

theorem opsAfterLastClear_eq_self (ops : List Op) (h : hasClear ops = false) :
    opsAfterLastClear ops = ops := by
  have := foldl_clearReset ops []
  rw [h] at this
  simpa [opsAfterLastClear] using this

theorem mem_ledgerFold (ops : List Op) :
    ∀ (l : List String) (u : String),
      u ∈ ops.foldl ledgerStep l ↔
        ((hasClear ops = false ∧ u ∈ l) ∨ u ∈ publishedUris (opsAfterLastClear ops)) := by
  induction ops with
  | nil =>
    intro l u
    simp [hasClear, opsAfterLastClear, publishedUris]
  | cons op rest ih =>
    intro l u
    cases op with
    | clearAll =>
      have hhc : hasClear (Op.clearAll :: rest) = true := by simp [hasClear]
      have hoalc : opsAfterLastClear (Op.clearAll :: rest) = opsAfterLastClear rest := by
        show (Op.clearAll :: rest).foldl clearResetStep [] = opsAfterLastClear rest
        rw [List.foldl_cons]
        rfl
      rw [List.foldl_cons, show ledgerStep l Op.clearAll = ([] : List String) from rfl,
        ih [] u, hoalc, hhc]
      simp
    | publish v ds =>
      have hhc : hasClear (Op.publish v ds :: rest) = hasClear rest := by
        simp [hasClear]
      have hoalc : opsAfterLastClear (Op.publish v ds :: rest)
          = if hasClear rest then opsAfterLastClear rest
            else Op.publish v ds :: rest := by
        show (Op.publish v ds :: rest).foldl clearResetStep [] = _
        rw [List.foldl_cons,
          show clearResetStep [] (Op.publish v ds) = [Op.publish v ds] from rfl,
          foldl_clearReset rest [Op.publish v ds]]
        by_cases hc : hasClear rest
        · rw [if_pos hc, if_pos hc]
        · rw [if_neg hc, if_neg hc]
          simp
      rw [List.foldl_cons, show ledgerStep l (Op.publish v ds) = setAdd l v from rfl,
        ih (setAdd l v) u, hhc, hoalc]
      by_cases hc : hasClear rest
      · simp [hc]
      · rw [if_neg hc, opsAfterLastClear_eq_self rest (by simpa using hc),
          publishedUris_cons_publish]
        simp [hc, mem_setAdd]
        tauto

/-! ## Helper lemmas: job engine invariant -/

theorem drive_inv {e : Engine} (h : EngineInv e) : EngineInv (drive e) := by
  unfold drive
  by_cases hc : e.state = EngineState.Ready ∧ e.inFlight = none
  · rw [if_pos hc]
    obtain ⟨h1, h2⟩ := h
    have h0 : inFlightCount e = 0 := by simp [inFlightCount, hc.2]
    rw [h0] at h1
    cases hq : e.pendingQueue with
    | nil => exact ⟨h1.trans (by rw [h0]), h2⟩
    | cons j rest =>
      refine ⟨?_, fun j2 _ => rfl⟩
      show e.dispatchCount + 1 = e.settleCount + inFlightCount ⟨EngineState.Busy, rest, some j, e.dispatchCount + 1, e.settleCount⟩
      simp [inFlightCount]
      omega
  · rw [if_neg hc]
    exact h

theorem engineStep_inv {e : Engine} (ev : EngineEv) (h : EngineInv e) :
    EngineInv (engineStep e ev) := by
  obtain ⟨h1, h2⟩ := h
  cases ev with
  | ready =>
    show EngineInv (if e.state = EngineState.NotReady then _ else e)
    by_cases hs : e.state = EngineState.NotReady
    · rw [if_pos hs]
      apply drive_inv
      have hif : e.inFlight = none := by
        cases hin : e.inFlight with
        | none => rfl
        | some j =>
          have hb := h2 j hin
          rw [hs] at hb
          exact absurd hb (by decide)
      exact ⟨h1, fun j hj => by rw [hif] at hj; cases hj⟩
    · rw [if_neg hs]
      exact ⟨h1, h2⟩
  | submit j =>
    exact drive_inv ⟨h1, h2⟩
  | result i =>
    show EngineInv (match e.inFlight with
      | some j => if j.id = i then _ else e
      | none => drive e)
    cases hin : e.inFlight with
    | none => exact drive_inv ⟨h1, by rw [hin] at h2 ⊢; exact h2⟩
    | some j =>
      show EngineInv (if j.id = i then _ else e)
      by_cases hid : j.id = i
      · rw [if_pos hid]
        apply drive_inv
        have hifc : inFlightCount e = 1 := by simp [inFlightCount, hin]
        rw [hifc] at h1
        refine ⟨?_, fun j2 hj2 => by cases hj2⟩
        show e.dispatchCount = (e.settleCount + 1) + inFlightCount ⟨EngineState.Ready, e.pendingQueue, none, e.dispatchCount, e.settleCount + 1⟩
        simp [inFlightCount]
        omega
      · rw [if_neg hid]
        exact ⟨h1, h2⟩
  | compilerExit =>
    refine ⟨?_, fun j2 hj2 => by cases hj2⟩
    show e.dispatchCount
      = (e.settleCount + (match e.inFlight with | some _ => 1 | none => 0))
        + inFlightCount ⟨EngineState.Exited, [], none,
            e.dispatchCount,
            e.settleCount + (match e.inFlight with | some _ => 1 | none => 0)⟩
    have : inFlightCount e = (match e.inFlight with | some _ => 1 | none => 0) := rfl
    rw [this] at h1
    simp [inFlightCount]
    omega

theorem engineInv_foldl (evs : List EngineEv) :
    ∀ e : Engine, EngineInv e → EngineInv (evs.foldl engineStep e) := by
  induction evs with
  | nil => intro e h; exact h
  | cons ev rest ih =>
    intro e h
    exact ih (engineStep e ev) (engineStep_inv ev h)

theorem runEngine_inv (evs : List EngineEv) : EngineInv (runEngine evs) :=
  engineInv_foldl evs initEngine ⟨rfl, fun j hj => by cases hj⟩

/-! ## Claims -/

/-- C1 (counterexample): a single `sendDiagnostics` call with an empty
diagnostics array puts `"file://a"` into `fileUrisWithErrors` although the
last (and only) notification published for it carries an empty array, so the
ledger does hold an entry whose last-published diagnostics array is empty. -/
theorem C1_counterexample :
    "file://a" ∈ (run [Op.publish "file://a" []]).fileUrisWithErrors ∧
    lastPublished (run [Op.publish "file://a" []]).sentNotifications "file://a"
      = some [] := by
  decide

/-- C1 (amended): for every sequence of publish/clearAll operations, every URI
tracked in `fileUrisWithErrors` was passed to `sendDiagnostics` since the most
recent `clearDiagnostics` (or since start) — but not necessarily with a
non-empty diagnostics array, since `sendDiagnostics` adds the URI
unconditionally. -/
theorem C1_tracked_uri_was_published (ops : List Op) (u : String)
    (h : u ∈ (run ops).fileUrisWithErrors) :
    u ∈ publishedUris (opsAfterLastClear ops) := by
  rw [run, runFrom_ledger ops initState] at h
  rcases (mem_ledgerFold ops [] u).mp h with ⟨_, h2⟩ | h2
  · cases h2
  · exact h2

/-- C1 (witness for the amended theorem) at the one-publish trace. -/
theorem C1_tracked_uri_was_published_witness :
    "file://a" ∈ (run [Op.publish "file://a" [⟨0, 0, 0, 1, "e", 1⟩]]).fileUrisWithErrors ∧
    "file://a" ∈ publishedUris
      (opsAfterLastClear [Op.publish "file://a" [⟨0, 0, 0, 1, "e", 1⟩]]) :=
  ⟨by decide, C1_tracked_uri_was_published [Op.publish "file://a" [⟨0, 0, 0, 1, "e", 1⟩]]
    "file://a" (by decide)⟩

/-- C2: for every interleaving of submit, dispatch and result events, at most
one job is outstanding against the Compiler Proxy at any instant: the number
of dispatched jobs never exceeds the number of settled jobs by more than the
single in-flight slot, which holds at most one job. -/
theorem C2_at_most_one_inFlight (evs : List EngineEv) :
    (runEngine evs).dispatchCount
      = (runEngine evs).settleCount + inFlightCount (runEngine evs) ∧
    inFlightCount (runEngine evs) ≤ 1 := by
  obtain ⟨h1, _⟩ := runEngine_inv evs
  refine ⟨h1, ?_⟩
  cases h : (runEngine evs).inFlight <;> simp [inFlightCount, h]

/-- C3 (counterexample): after `publish("file://a", [err1])` followed by
`publish("file://a", [])`, the ledger still contains `"file://a"` — nothing
in `sendDiagnostics` ever removes an entry. -/
theorem C3_counterexample :
    "file://a" ∈ (run [Op.publish "file://a" [⟨0, 0, 0, 1, "err1", 1⟩],
                       Op.publish "file://a" []]).fileUrisWithErrors := by
  decide

/-- C3 (amended): `publish("file://a", [err1])` followed by
`publish("file://a", [])` produces exactly two transport calls, the second
carrying an empty diagnostics array — but afterwards the ledger still
contains (exactly) `"file://a"`. -/
theorem C3_two_calls_ledger_kept (e : Diagnostic) :
    (run [Op.publish "file://a" [e], Op.publish "file://a" []]).sentNotifications
      = [⟨"file://a", [e]⟩, ⟨"file://a", []⟩] ∧
    (run [Op.publish "file://a" [e], Op.publish "file://a" []]).fileUrisWithErrors
      = ["file://a"] := by
  constructor
  · rfl
  · rfl

/-- C4 (counterexample): two consecutive `publish("file://a", [])` calls send
two retraction notifications, not one. -/
theorem C4_counterexample :
    retractionCount
      (run [Op.publish "file://a" [], Op.publish "file://a" []]).sentNotifications
      "file://a" = 2 := by
  decide

/-- C4 (amended): publishing empty diagnostics is not idempotent: for every
URI and every prior state, calling `publish(uri, [])` twice in a row forwards
exactly two retraction notifications to the transport, one per call. -/
theorem C4_double_empty_publish (st : ServerState) (uri : String) :
    (sendDiagnostics (sendDiagnostics st ⟨uri, []⟩) ⟨uri, []⟩).sentNotifications
      = st.sentNotifications ++ [⟨uri, []⟩, ⟨uri, []⟩] := by
  simp [sendDiagnostics]

/-- C5 (counterexample): `"file://b"` is not tracked in the initial state,
yet `publish("file://b", [])` does send a notification and does change the
ledger, which now tracks `"file://b"`. -/
theorem C5_counterexample :
    "file://b" ∉ initState.fileUrisWithErrors ∧
    (sendDiagnostics initState ⟨"file://b", []⟩).sentNotifications
      = [⟨"file://b", []⟩] ∧
    (sendDiagnostics initState ⟨"file://b", []⟩).fileUrisWithErrors
      = ["file://b"] := by
  decide

/-- C5 (amended): for every URI, tracked or not, `publish(uri, [])` forwards
exactly one empty-array notification and adds the URI to the ledger (a no-op
when already tracked); no entry is ever deleted by a publish. -/
theorem C5_empty_publish_always_sends (st : ServerState) (uri : String) :
    (sendDiagnostics st ⟨uri, []⟩).sentNotifications
      = st.sentNotifications ++ [⟨uri, []⟩] ∧
    (sendDiagnostics st ⟨uri, []⟩).fileUrisWithErrors
      = setAdd st.fileUrisWithErrors uri :=
  ⟨rfl, rfl⟩

/-- C6: `clearDiagnostics` sends exactly one empty-array retraction for every
URI tracked at the moment of the call (one per tracked URI, given that the
set representation is duplicate-free) and leaves the ledger empty. -/
theorem C6_clearAll_retracts_every_tracked_uri (st : ServerState)
    (h : st.fileUrisWithErrors.Nodup) :
    (clearDiagnostics st).sentNotifications
      = st.sentNotifications
        ++ st.fileUrisWithErrors.map (fun u => (⟨u, []⟩ : PublishDiagnosticsParams)) ∧
    (∀ u ∈ st.fileUrisWithErrors,
      (st.fileUrisWithErrors.map
        (fun v => (⟨v, []⟩ : PublishDiagnosticsParams))).count ⟨u, []⟩ = 1) ∧
    (clearDiagnostics st).fileUrisWithErrors = [] := by
  refine ⟨clearDiagnostics_log st, ?_, clearDiagnostics_ledger st⟩
  intro u hu
  have hinj : Function.Injective (fun v : String => (⟨v, []⟩ : PublishDiagnosticsParams)) :=
    fun a b hab => congrArg PublishDiagnosticsParams.uri hab
  rw [List.count_map_of_injective st.fileUrisWithErrors _ hinj u]
  exact List.count_eq_one_of_mem h hu

/-- C6 (witness) at the state tracking exactly `"file://a"`. -/
theorem C6_clearAll_retracts_every_tracked_uri_witness :
    (clearDiagnostics ⟨["file://a"], []⟩).sentNotifications
      = ([] : List PublishDiagnosticsParams)
        ++ (["file://a"] : List String).map
          (fun u => (⟨u, []⟩ : PublishDiagnosticsParams)) ∧
    (∀ u ∈ (["file://a"] : List String),
      ((["file://a"] : List String).map
        (fun v => (⟨v, []⟩ : PublishDiagnosticsParams))).count ⟨u, []⟩ = 1) ∧
    (clearDiagnostics ⟨["file://a"], []⟩).fileUrisWithErrors = [] :=
  C6_clearAll_retracts_every_tracked_uri ⟨["file://a"], []⟩ (by decide)

/-- C7: for every prior state, `clearAll()` followed by `publish(uri, ds)`
with non-empty `ds` leaves the ledger containing exactly the one entry `uri`. -/
theorem C7_clear_then_publish (st : ServerState) (uri : String)
    (ds : List Diagnostic) (h : ds ≠ []) :
    (sendDiagnostics (clearDiagnostics st) ⟨uri, ds⟩).fileUrisWithErrors = [uri] := by
  show setAdd (clearDiagnostics st).fileUrisWithErrors uri = [uri]
  rw [clearDiagnostics_ledger st]
  simp [setAdd]

/-- C7 (witness) at the initial state with a one-element diagnostics list. -/
theorem C7_clear_then_publish_witness :
    (sendDiagnostics (clearDiagnostics initState)
      ⟨"file://a", [⟨0, 0, 0, 1, "w", 1⟩]⟩).fileUrisWithErrors = ["file://a"] :=
  C7_clear_then_publish initState "file://a" [⟨0, 0, 0, 1, "w", 1⟩] (by decide)

/-- C8: server.ts registers the identical handler function,
`handlers.handleChangeContent`, for both the content-change event (line 91)
and the save event (line 94), so both event paths get the same behaviour. -/
theorem C8_save_and_change_same_handler :
    registeredHandler ServerEvent.didSave
      = registeredHandler ServerEvent.didChangeContent ∧
    registeredHandler ServerEvent.didSave = Handler.handleChangeContent :=
  ⟨rfl, rfl⟩

/-- C9: after any sequence of sendDiagnostics/clearDiagnostics calls,
`fileUrisWithErrors` holds exactly the URIs passed to `sendDiagnostics` since
the most recent `clearDiagnostics` (or since start), independent of whether
the diagnostics arrays were empty; and `sendDiagnostics` always forwards
exactly one notification with its parameters unmodified. -/
theorem C9_ledger_is_published_since_clear :
    (∀ (ops : List Op) (u : String),
      u ∈ (run ops).fileUrisWithErrors
        ↔ u ∈ publishedUris (opsAfterLastClear ops)) ∧
    (∀ (st : ServerState) (p : PublishDiagnosticsParams),
      (sendDiagnostics st p).sentNotifications = st.sentNotifications ++ [p]) := by
  constructor
  · intro ops u
    rw [run, runFrom_ledger ops initState]
    constructor
    · intro h
      rcases (mem_ledgerFold ops [] u).mp h with ⟨_, h2⟩ | h2
      · cases h2
      · exact h2
    · intro h
      exact (mem_ledgerFold ops [] u).mpr (Or.inr h)
  · intro st p
    rfl

/-- C10: `clearDiagnostics` is idempotent: for every prior state, a second
consecutive call sends no notifications at all and leaves the tracked-URI
set empty. -/
theorem C10_clear_idempotent (st : ServerState) :
    (clearDiagnostics (clearDiagnostics st)).sentNotifications
      = (clearDiagnostics st).sentNotifications ∧
    (clearDiagnostics (clearDiagnostics st)).fileUrisWithErrors = [] :=
  ⟨rfl, rfl⟩

end VSF
